import Mathlib

/-!
# Version resolvers of `pkg/get/version_resolver.go`

A shallow embedding of the three `Version()` methods
(`GithubVersionResolver`, `K8VersionResolver`, `GoVersionResolver`) and of the
library functions they call, followed by theorems about them.

Modelling conventions.

* A Go `string` is a `List Char`: the sequence of code points of a UTF-8 text.
  `len(s) == 0` is `s = []`; the slice `s[i:]` drops the first `i` elements.
* A Go `error` is a value carrying its message (`GoError`), `nil` is `none`.
* A `(string, error)` result is a pair; a method returns `none` when it would
  stop with a run-time panic (slice or index out of range).
* The network is a parameter (`Net`): `http.NewRequest`, the `Do` method of the
  client a resolver builds, and `pkg.UserAgent()`.
-/

namespace Get

/-! ## Data model -/

/-- A Go string. -/
abbrev GoString := List Char

/-- A Go `error` value, identified with its message. -/
structure GoError where
  msg : GoString
  deriving DecidableEq, Repr

/-- A `http.Header`: the values stored under each (canonical) key; a key that is
absent has no values. -/
abbrev Header := GoString → List GoString

/-- The `Header.Get` method: the first value under the key, `""` when there is none. -/
def Header.Get (h : Header) (key : GoString) : GoString :=
  match h key with
  | [] => []
  | v :: _ => v

/-- The `Header.Set` method: replaces the values under the key by the single value. -/
def Header.Set (h : Header) (key value : GoString) : Header :=
  fun k => if k = key then [value] else h k

/-- A `*http.Request`, as far as the resolvers build it. -/
structure Request where
  Method : GoString
  URL : GoString
  Header : Header

/-- A response body seen through `io.ReadAll`: the bytes read and the error, if
any, that ended the read. -/
structure Body where
  data : GoString
  err : Option GoError
  deriving DecidableEq, Repr

/-- The function `io.ReadAll`: `(data, err)`. -/
def ReadAll (b : Body) : GoString × Option GoError := (b.data, b.err)

/-- A `*http.Response`: `Body` is `none` for a nil body. -/
structure Response where
  StatusCode : Int
  Header : Header
  Body : Option Body

/-- The collaborators a resolver calls: `http.NewRequest(method, url, nil)`, the
`Do` method of its HTTP client and `pkg.UserAgent()`. -/
structure Net where
  NewRequest : GoString → GoString → Except GoError Request
  Do : Request → Except GoError Response
  UserAgent : GoString

/-- The result of a `Version()` call: the `(string, error)` pair, or `none` for a
run-time panic. -/
abbrev Outcome := Option (GoString × Option GoError)

/-! ## Library functions -/

/-- The verb `%d` of `fmt` on an `int`. -/
def fmtInt (n : Int) : GoString :=
  if n < 0 then '-' :: Nat.toDigits 10 n.natAbs else Nat.toDigits 10 n.toNat

/-- The function `fmt.Errorf` for a format that ends in its only verb `%d`. -/
def Errorf (pre : GoString) (n : Int) : GoError := ⟨pre ++ fmtInt n⟩

/-- The function `strings.LastIndex`: the index of the last occurrence of `sep` in
`s`, or `-1`. -/
def LastIndex (s sep : GoString) : Int :=
  match s with
  | [] => if sep = [] then 0 else -1
  | c :: cs =>
    let r := LastIndex cs sep
    if 0 ≤ r then r + 1
    else if sep.isPrefixOf (c :: cs) then 0 else -1

/-- The slice expression `s[i:]`; `none` when the index is out of range. -/
def sliceFrom (s : GoString) (i : Int) : Option GoString :=
  if 0 ≤ i ∧ i ≤ s.length then some (s.drop i.toNat) else none

/-- The predicate `unicode.IsSpace`. -/
def IsSpace (c : Char) : Bool :=
  c = '\t' || c = '\n' || c = Char.ofNat 0x0B || c = Char.ofNat 0x0C || c = '\r' || c = ' '
    || c = Char.ofNat 0x85 || c = Char.ofNat 0xA0 || c = Char.ofNat 0x1680
    || (0x2000 ≤ c.toNat && c.toNat ≤ 0x200A)
    || c = Char.ofNat 0x2028 || c = Char.ofNat 0x2029 || c = Char.ofNat 0x202F
    || c = Char.ofNat 0x205F || c = Char.ofNat 0x3000

/-- The function `strings.TrimSpace`: leading and trailing white space removed. -/
def TrimSpace (s : GoString) : GoString :=
  ((s.dropWhile IsSpace).reverse.dropWhile IsSpace).reverse

/-! ### Regular expressions

The part of `regexp` the toolchain resolver uses: a pattern is a sequence of
items, matched by backtracking with Go's leftmost-first preference (a greedy
`+` tries one more repetition before it tries to stop). -/

/-- A one-character matcher. -/
inductive Cls where
  | lit (c : Char)
  | digit
  | anyNotNL
  deriving DecidableEq, Repr

/-- Whether a character is matched: `\d` is `[0-9]`, `.` is any character but a
newline. -/
def Cls.test : Cls → Char → Bool
  | .lit c, x => x == c
  | .digit, x => x.isDigit
  | .anyNotNL, x => x != '\n'

/-- An item of a pattern. -/
inductive Item where
  | beginText
  | one (c : Cls)
  | plus (c : Cls)
  | save (slot : Nat)
  deriving DecidableEq, Repr

/-- A compiled pattern. -/
abbrev Regexp := List Item

/-- The result of a match: its end position and the positions saved on the way. -/
abbrev Match := Nat × List (Nat × Nat)

/-- The greedy repetition `c+` followed by the rest of the pattern `k`: after each
matched character one more repetition is tried before the rest is. -/
def plusLoop (c : Cls) (k : GoString → Nat → List (Nat × Nat) → Option Match) :
    GoString → Nat → List (Nat × Nat) → Option Match
  | [], _, _ => none
  | x :: xs, pos, caps =>
    if c.test x then
      (plusLoop c k xs (pos + 1) caps).orElse fun _ => k xs (pos + 1) caps
    else none

/-- Backtracking match of the items against the input `s`, which starts at
position `pos` of the text: the preferred match, if there is one. -/
def run : Regexp → GoString → Nat → List (Nat × Nat) → Option Match
  | [], _, pos, caps => some (pos, caps)
  | .beginText :: is, s, pos, caps => if pos = 0 then run is s pos caps else none
  | .save n :: is, s, pos, caps => run is s pos ((n, pos) :: caps)
  | .one c :: is, s, pos, caps =>
    match s with
    | [] => none
    | x :: xs => if c.test x then run is xs (pos + 1) caps else none
  | .plus c :: is, s, pos, caps => plusLoop c (run is) s pos caps

/-- The leftmost match: `run` tried at each start position in turn. -/
def search (re : Regexp) : GoString → Nat → Option Match
  | [], pos => run re [] pos []
  | x :: xs, pos => (run re (x :: xs) pos []).orElse fun _ => search re xs (pos + 1)

/-- The slice `s[a:b]` of a match. -/
def between (s : GoString) (a b : Nat) : GoString := (s.drop a).take (b - a)

/-- The method `FindStringSubmatch` for a pattern with one group (slots 2 and 3):
`nil` without a match, else the whole match and the text of the group. -/
def FindStringSubmatch (re : Regexp) (s : GoString) : List GoString :=
  match search re s 0 with
  | none => []
  | some (stop, caps) =>
    [s.take stop,
     match caps.lookup 2, caps.lookup 3 with
     | some a, some b => between s a b
     | _, _ => []]

/-- The parser of `regexp.Compile`, one character of the pattern at a time, for
the syntax the package uses: `^`, a group, the class `\d`, the wildcard `.`, the
repetition `+` of a one-character matcher, and literal characters. `esc` is true
after a backslash, `groups` counts the groups opened so far, `opened` holds the
groups not yet closed and `acc` the items read, last first. Group `n` saves its
bounds in the slots `2n` and `2n+1`. -/
def compileLoop : GoString → Bool → Nat → List Nat → List Item → Except GoError Regexp
  | [], esc, _, opened, acc =>
    if esc then .error ⟨"trailing backslash at end of expression".toList⟩
    else if opened ≠ [] then .error ⟨"missing closing )".toList⟩
    else .ok acc.reverse
  | c :: cs, true, groups, opened, acc =>
    if c = 'd' then compileLoop cs false groups opened (.one .digit :: acc)
    else .error ⟨"invalid escape sequence".toList⟩
  | c :: cs, false, groups, opened, acc =>
    if c = '\\' then compileLoop cs true groups opened acc
    else if c = '^' then compileLoop cs false groups opened (.beginText :: acc)
    else if c = '(' then
      compileLoop cs false (groups + 1) ((groups + 1) :: opened)
        (.save (2 * (groups + 1)) :: acc)
    else if c = ')' then
      match opened with
      | [] => .error ⟨"unexpected )".toList⟩
      | n :: ns => compileLoop cs false groups ns (.save (2 * n + 1) :: acc)
    else if c = '+' then
      match acc with
      | .one k :: acc => compileLoop cs false groups opened (.plus k :: acc)
      | _ => .error ⟨"missing argument to repetition operator".toList⟩
    else if c = '.' then compileLoop cs false groups opened (.one .anyNotNL :: acc)
    else if c ∈ ['*', '?', '[', ']', '\x7b', '\x7d', '|', '$'] then
      .error ⟨"syntax outside the modelled subset".toList⟩
    else compileLoop cs false groups opened (.one (.lit c) :: acc)

/-- The function `regexp.Compile`, on that syntax. -/
def Compile (pattern : GoString) : Except GoError Regexp :=
  compileLoop pattern false 0 [] []

/-- The program of the pattern `^go(\d+.\d+.\d+)`. -/
def goVersionExp : Regexp :=
  [.beginText, .one (.lit 'g'), .one (.lit 'o'), .save 2,
   .plus .digit, .one .anyNotNL, .plus .digit, .one .anyNotNL, .plus .digit, .save 3]

/-! ## The resolvers -/

/-- The statement `req.Header.Set("User-Agent", pkg.UserAgent())`. -/
def withUserAgent (net : Net) (req : Request) : Request :=
  { req with Header := req.Header.Set "User-Agent".toList net.UserAgent }

/-- The receiver of the GitHub resolver. -/
structure GithubVersionResolver where
  Owner : GoString
  Repo : GoString

/-- The URL `fmt.Sprintf("https://github.com/%s/%s/releases/latest", r.Owner, r.Repo)`. -/
def GithubVersionResolver.url (r : GithubVersionResolver) : GoString :=
  "https://github.com/".toList ++ r.Owner ++ "/".toList ++ r.Repo ++ "/releases/latest".toList

/-- The method `GithubVersionResolver.Version`. -/
def GithubVersionResolver.Version (r : GithubVersionResolver) (net : Net) : Outcome :=
  match net.NewRequest "HEAD".toList r.url with
  | .error err => some ([], some err)
  | .ok req =>
    match net.Do (withUserAgent net req) with
    | .error err => some ([], some err)
    | .ok res =>
      if res.StatusCode ≠ 301 ∧ res.StatusCode ≠ 302 then
        some ([], some (Errorf "server returned status: ".toList res.StatusCode))
      else
        let loc := res.Header.Get "Location".toList
        if loc.length = 0 then
          some ([], some ⟨"unable to determine release of tool".toList⟩)
        else
          match sliceFrom loc (LastIndex loc "/".toList + 1) with
          | none => none
          | some version => some (version, none)

/-- The URL of the Kubernetes stable channel. -/
def k8sURL : GoString := "https://cdn.dl.k8s.io/release/stable.txt".toList

/-- The method `K8VersionResolver.Version`. -/
def K8VersionResolver.Version (net : Net) : Outcome :=
  match net.NewRequest "GET".toList k8sURL with
  | .error err => some ([], some err)
  | .ok req =>
    match net.Do (withUserAgent net req) with
    | .error err => some ([], some err)
    | .ok res =>
      match res.Body with
      | none => some ([], some ⟨"unable to determine release of tool".toList⟩)
      | some body =>
        match ReadAll body with
        | (_, some err) => some ([], some err)
        | (bodyBytes, none) => some (bodyBytes, none)

/-- The URL of the Go toolchain version. -/
def goURL : GoString := "https://go.dev/VERSION?m=text".toList

/-- The method `GoVersionResolver.Version`. -/
def GoVersionResolver.Version (net : Net) : Outcome :=
  match net.NewRequest "GET".toList goURL with
  | .error err => some ([], some err)
  | .ok req =>
    match net.Do (withUserAgent net req) with
    | .error err => some ([], some err)
    | .ok res =>
      match res.Body with
      | none => some ([], some ⟨"unexpected empty body".toList⟩)
      | some b =>
        let body := (ReadAll b).1
        if res.StatusCode ≠ 200 then
          some ([], some (Errorf "unexpected status code: ".toList res.StatusCode))
        else
          let content := TrimSpace body
          match Compile "^go(\\d+.\\d+.\\d+)".toList with
          | .error err => some ([], some err)
          | .ok exp =>
            let version := FindStringSubmatch exp content
            if version.length < 2 then
              some ([], some ⟨"failed to fetch go latest version number".toList⟩)
            else
              match version.get? 1 with
              | none => none
              | some v => some (v, none)

/-! ## Fixtures -/

/-- A network whose `NewRequest` succeeds and whose client answers every request
with `res`. -/
def serving (res : Response) : Net where
  NewRequest := fun m u => .ok ⟨m, u, fun _ => []⟩
  Do := fun _ => .ok res
  UserAgent := "arkade".toList

/-- A header with the single key `Location`. -/
def locationHeader (loc : GoString) : Header :=
  fun k => if k = "Location".toList then [loc] else []

/-- A response without body. -/
def headResponse (status : Int) (h : Header) : Response := ⟨status, h, none⟩

/-- A response whose body is read to the end. -/
def textResponse (status : Int) (text : GoString) : Response :=
  ⟨status, fun _ => [], some ⟨text, none⟩⟩

/-- The resolver of the repository `owner/repo`. -/
def ownerRepo : GithubVersionResolver := ⟨"owner".toList, "repo".toList⟩

/-- The request `NewRequest` of `serving` builds for `ownerRepo`. -/
def ownerRepoRequest : Request := ⟨"HEAD".toList, ownerRepo.url, fun _ => []⟩

/-- The redirect of the latest release to the tag `v1.2.3`. -/
def tagLocation : GoString := "https://github.com/owner/repo/releases/tag/v1.2.3".toList

/-- The response `302 Found` with that `Location`. -/
def tagResponse : Response := headResponse 302 (locationHeader tagLocation)

/-- The response `200 OK` with that `Location`. -/
def okResponse : Response := headResponse 200 (locationHeader tagLocation)

/-- The response `301 Moved Permanently` without any header. -/
def bareRedirect : Response := headResponse 301 fun _ => []

/-- The response `302 Found` whose `Location` holds no `/`. -/
def flatRedirect : Response := headResponse 302 (locationHeader "v9".toList)

/-- The response `302 Found` whose `Location` ends with `/`. -/
def slashRedirect : Response := headResponse 302 (locationHeader "tag/".toList)

/-- The request `NewRequest` of `serving` builds for the stable channel. -/
def k8sRequest : Request := ⟨"GET".toList, k8sURL, fun _ => []⟩

/-- The response `200 OK` with the body `v1.29.0` and a newline. -/
def stableResponse : Response := textResponse 200 "v1.29.0\n".toList

/-- The response `404 Not Found` with the body `gone`. -/
def goneResponse : Response := textResponse 404 "gone".toList

/-- The request `NewRequest` of `serving` builds for the toolchain version. -/
def goRequest : Request := ⟨"GET".toList, goURL, fun _ => []⟩

/-- The response `200 OK` with the body `go1.22.1` and a newline. -/
def goResponse : Response := textResponse 200 "go1.22.1\n".toList

/-- The response `500 Internal Server Error` with the same body. -/
def goFailure : Response := textResponse 500 "go1.22.1\n".toList

/-- The response `200 OK` whose body breaks off with an error after `go1.22.1`. -/
def goBroken : Response :=
  ⟨200, fun _ => [], some ⟨"go1.22.1".toList, some ⟨"unexpected EOF".toList⟩⟩⟩

/-! ## Facts about the library functions -/

/-- The pattern of the toolchain resolver compiles, to `goVersionExp`. -/
theorem Compile_goVersionExp :
    Compile "^go(\\d+.\\d+.\\d+)".toList = .ok goVersionExp := rfl

theorem slash_toList : "/".toList = ['/'] := rfl

/-- The index `LastIndex(s, "/")` is `-1` when `s` has no `/`, and otherwise the
length of the part of `s` before a `/` that no `/` follows. -/
theorem LastIndex_slash (s : GoString) :
    (LastIndex s "/".toList = -1 ∧ '/' ∉ s) ∨
    ∃ pre suf, LastIndex s "/".toList = (pre.length : Int) ∧ s = pre ++ '/' :: suf ∧ '/' ∉ suf := by
  rw [slash_toList]
  induction s with
  | nil => left; simp [LastIndex]
  | cons c cs ih =>
    rcases ih with ⟨h, hn⟩ | ⟨pre, suf, h, hs, hn⟩
    · by_cases hc : c = '/'
      · right
        refine ⟨[], cs, ?_, by simp [hc], hn⟩
        simp [LastIndex, h, hc, List.isPrefixOf]
      · left
        refine ⟨?_, by simp [hn, Ne.symm hc]⟩
        simp [LastIndex, h, List.isPrefixOf, Ne.symm hc]
    · right
      refine ⟨c :: pre, suf, ?_, by simp [hs], hn⟩
      have h0 : (0 : Int) ≤ (pre.length : Int) := Int.ofNat_nonneg _
      simp [LastIndex, h, h0]

/-- The slice `loc[strings.LastIndex(loc, "/")+1:]` is always in range; it holds no
`/`, and it is all of `loc` or what follows a `/` of `loc`. -/
theorem slice_after_last_slash (loc : GoString) :
    ∃ v, sliceFrom loc (LastIndex loc "/".toList + 1) = some v ∧ '/' ∉ v ∧
      (('/' ∉ loc ∧ v = loc) ∨ ∃ pre, loc = pre ++ '/' :: v) := by
  rcases LastIndex_slash loc with ⟨h, hn⟩ | ⟨pre, suf, h, hs, hn⟩
  · exact ⟨loc, by rw [sliceFrom, h]; simp, hn, Or.inl ⟨hn, rfl⟩⟩
  · refine ⟨suf, ?_, hn, Or.inr ⟨pre, hs⟩⟩
    have h1 : (0 : Int) ≤ (pre.length : Int) + 1 := by omega
    have h2 : (pre.length : Int) + 1 ≤ (loc.length : Int) := by
      rw [hs]; simp
    have h3 : ((pre.length : Int) + 1).toNat = pre.length + 1 := by omega
    rw [h, sliceFrom, if_pos ⟨h1, h2⟩, h3]
    conv_lhs => rw [hs]
    simp

/-! ## The GitHub resolver -/

/-- What `Version` does once `NewRequest` and `Do` have returned a response. -/
theorem github_version_of_response (r : GithubVersionResolver) (net : Net)
    (req : Request) (res : Response)
    (hreq : net.NewRequest "HEAD".toList r.url = .ok req)
    (hdo : net.Do (withUserAgent net req) = .ok res) :
    r.Version net =
      if res.StatusCode ≠ 301 ∧ res.StatusCode ≠ 302 then
        some ([], some (Errorf "server returned status: ".toList res.StatusCode))
      else if (res.Header.Get "Location".toList).length = 0 then
        some ([], some ⟨"unable to determine release of tool".toList⟩)
      else
        match sliceFrom (res.Header.Get "Location".toList)
            (LastIndex (res.Header.Get "Location".toList) "/".toList + 1) with
        | none => none
        | some version => some (version, none) := by
  simp only [GithubVersionResolver.Version, hreq, hdo]

/-- On a redirect with a non-empty `Location`, `Version` returns the slice after
the last `/`, which is in range. -/
theorem github_version_of_redirect (r : GithubVersionResolver) (net : Net)
    (req : Request) (res : Response)
    (hreq : net.NewRequest "HEAD".toList r.url = .ok req)
    (hdo : net.Do (withUserAgent net req) = .ok res)
    (hs : res.StatusCode = 301 ∨ res.StatusCode = 302)
    (hloc : res.Header.Get "Location".toList ≠ []) :
    ∃ v, r.Version net = some (v, none) ∧ '/' ∉ v ∧
      (('/' ∉ res.Header.Get "Location".toList ∧ v = res.Header.Get "Location".toList) ∨
        ∃ pre, res.Header.Get "Location".toList = pre ++ '/' :: v) := by
  obtain ⟨v, hv, hn, hform⟩ := slice_after_last_slash (res.Header.Get "Location".toList)
  refine ⟨v, ?_, hn, hform⟩
  have h1 : ¬ (res.StatusCode ≠ 301 ∧ res.StatusCode ≠ 302) := by
    rcases hs with h | h <;> simp [h]
  have h2 : ¬ (res.Header.Get "Location".toList).length = 0 := by
    simpa [List.length_eq_zero] using hloc
  rw [github_version_of_response r net req res hreq hdo, if_neg h1, if_neg h2, hv]

/-- A successful `Version` saw a redirect with a non-empty `Location` and returned
what follows its last `/`. -/
theorem github_version_success (r : GithubVersionResolver) (net : Net)
    (req : Request) (res : Response)
    (hreq : net.NewRequest "HEAD".toList r.url = .ok req)
    (hdo : net.Do (withUserAgent net req) = .ok res)
    (v : GoString) (hv : r.Version net = some (v, none)) :
    (res.StatusCode = 301 ∨ res.StatusCode = 302) ∧
    res.Header.Get "Location".toList ≠ [] ∧ '/' ∉ v ∧
    (res.Header.Get "Location".toList = v ∨
      ∃ pre, res.Header.Get "Location".toList = pre ++ '/' :: v) := by
  have key : (res.StatusCode = 301 ∨ res.StatusCode = 302) ∧
      res.Header.Get "Location".toList ≠ [] := by
    have hv2 := hv
    rw [github_version_of_response r net req res hreq hdo] at hv2
    by_cases h1 : res.StatusCode ≠ 301 ∧ res.StatusCode ≠ 302
    · rw [if_pos h1] at hv2; simp at hv2
    · by_cases h2 : (res.Header.Get "Location".toList).length = 0
      · rw [if_neg h1, if_pos h2] at hv2; simp at hv2
      · refine ⟨?_, fun h => h2 (by rw [h]; rfl)⟩
        by_contra hc
        exact h1 ⟨fun h => hc (Or.inl h), fun h => hc (Or.inr h)⟩
  obtain ⟨hs, hloc⟩ := key
  obtain ⟨w, hw, hn, hform⟩ := github_version_of_redirect r net req res hreq hdo hs hloc
  have hvw : v = w := by
    rw [hw] at hv
    exact ((Prod.mk.inj (Option.some.inj hv)).1).symm
  subst hvw
  refine ⟨hs, hloc, hn, ?_⟩
  rcases hform with ⟨_, h⟩ | h
  · exact Or.inl h.symm
  · exact Or.inr h

/-- C1. For every response obtained without a transport error, `Version` succeeds
exactly when the status code is 301 or 302 and the `Location` header is non-empty,
and the version it then returns holds no `/` and is either the whole `Location`
value or what follows a `/` of it: the substring after the last `/`. -/
theorem github_version_contract (r : GithubVersionResolver) (net : Net)
    (req : Request) (res : Response)
    (hreq : net.NewRequest "HEAD".toList r.url = .ok req)
    (hdo : net.Do (withUserAgent net req) = .ok res) :
    ((∃ v, r.Version net = some (v, none)) ↔
      (res.StatusCode = 301 ∨ res.StatusCode = 302) ∧ res.Header.Get "Location".toList ≠ []) ∧
    ∀ v, r.Version net = some (v, none) →
      '/' ∉ v ∧ (res.Header.Get "Location".toList = v ∨
        ∃ pre, res.Header.Get "Location".toList = pre ++ '/' :: v) := by
  refine ⟨⟨fun ⟨v, hv⟩ => ?_, fun ⟨hs, hloc⟩ => ?_⟩, fun v hv => ?_⟩
  · obtain ⟨hs, hloc, _⟩ := github_version_success r net req res hreq hdo v hv
    exact ⟨hs, hloc⟩
  · obtain ⟨v, hv, _⟩ := github_version_of_redirect r net req res hreq hdo hs hloc
    exact ⟨v, hv⟩
  · obtain ⟨_, _, hn, hform⟩ := github_version_success r net req res hreq hdo v hv
    exact ⟨hn, hform⟩

/-- C1 at the response `302 Found` with
`Location: https://github.com/owner/repo/releases/tag/v1.2.3`: the version is `v1.2.3`. -/
theorem github_version_contract_witness :
    (serving tagResponse).NewRequest "HEAD".toList ownerRepo.url = .ok ownerRepoRequest ∧
    (serving tagResponse).Do (withUserAgent (serving tagResponse) ownerRepoRequest)
      = .ok tagResponse ∧
    ownerRepo.Version (serving tagResponse) = some ("v1.2.3".toList, none) ∧
    (((∃ v, ownerRepo.Version (serving tagResponse) = some (v, none)) ↔
      (tagResponse.StatusCode = 301 ∨ tagResponse.StatusCode = 302) ∧
        tagResponse.Header.Get "Location".toList ≠ []) ∧
    ∀ v, ownerRepo.Version (serving tagResponse) = some (v, none) →
      '/' ∉ v ∧ (tagResponse.Header.Get "Location".toList = v ∨
        ∃ pre, tagResponse.Header.Get "Location".toList = pre ++ '/' :: v)) :=
  ⟨rfl, rfl, by set_option maxRecDepth 8000 in decide,
    github_version_contract ownerRepo (serving tagResponse) ownerRepoRequest tagResponse rfl rfl⟩

/-- C4. For every response whose status code is neither 301 nor 302, whatever its
headers, `Version` fails: it returns the empty version and the error
`server returned status: <code>`, whose message contains the status code in decimal. -/
theorem github_other_status_fails (r : GithubVersionResolver) (net : Net)
    (req : Request) (res : Response)
    (hreq : net.NewRequest "HEAD".toList r.url = .ok req)
    (hdo : net.Do (withUserAgent net req) = .ok res)
    (hs : res.StatusCode ≠ 301 ∧ res.StatusCode ≠ 302) :
    r.Version net
      = some ([], some (Errorf "server returned status: ".toList res.StatusCode)) ∧
    fmtInt res.StatusCode <:+: (Errorf "server returned status: ".toList res.StatusCode).msg := by
  refine ⟨?_, ?_⟩
  · rw [github_version_of_response r net req res hreq hdo, if_pos hs]
  · exact (List.suffix_append _ _).isInfix

/-- C4 at the response `200 OK` that carries a non-empty `Location`: the error
message is `server returned status: 200`. -/
theorem github_other_status_fails_witness :
    (okResponse.StatusCode ≠ 301 ∧ okResponse.StatusCode ≠ 302) ∧
    okResponse.Header.Get "Location".toList ≠ [] ∧
    fmtInt okResponse.StatusCode = "200".toList ∧
    (Errorf "server returned status: ".toList okResponse.StatusCode).msg
      = "server returned status: 200".toList ∧
    (ownerRepo.Version (serving okResponse)
      = some ([], some (Errorf "server returned status: ".toList okResponse.StatusCode)) ∧
    fmtInt okResponse.StatusCode
      <:+: (Errorf "server returned status: ".toList okResponse.StatusCode).msg) :=
  ⟨by decide, by decide, by decide, by decide,
    github_other_status_fails ownerRepo (serving okResponse) ownerRepoRequest okResponse
      rfl rfl (by decide)⟩

/-- C5. For every response with status 301 or 302 whose `Location` header is
missing or empty, `Version` fails with the error
`unable to determine release of tool` and returns the empty version. -/
theorem github_missing_location_fails (r : GithubVersionResolver) (net : Net)
    (req : Request) (res : Response)
    (hreq : net.NewRequest "HEAD".toList r.url = .ok req)
    (hdo : net.Do (withUserAgent net req) = .ok res)
    (hs : res.StatusCode = 301 ∨ res.StatusCode = 302)
    (hloc : res.Header "Location".toList = [] ∨
      ∃ more, res.Header "Location".toList = [] :: more) :
    r.Version net = some ([], some ⟨"unable to determine release of tool".toList⟩) := by
  have h1 : ¬ (res.StatusCode ≠ 301 ∧ res.StatusCode ≠ 302) := by
    rcases hs with h | h <;> simp [h]
  have h2 : (res.Header.Get "Location".toList).length = 0 := by
    rcases hloc with h | ⟨more, h⟩ <;> (unfold Header.Get; rw [h]; rfl)
  rw [github_version_of_response r net req res hreq hdo, if_neg h1, if_pos h2]

/-- C5 at the response `301 Moved Permanently` without a `Location` header. -/
theorem github_missing_location_fails_witness :
    (bareRedirect.StatusCode = 301 ∨ bareRedirect.StatusCode = 302) ∧
    bareRedirect.Header "Location".toList = [] ∧
    ownerRepo.Version (serving bareRedirect)
      = some ([], some ⟨"unable to determine release of tool".toList⟩) :=
  ⟨by decide, rfl,
    github_missing_location_fails ownerRepo (serving bareRedirect) ownerRepoRequest bareRedirect
      rfl rfl (by decide) (Or.inl rfl)⟩

/-- C8. For every response with status 301 or 302 whose non-empty `Location` value
holds no `/`, `Version` succeeds and returns the entire `Location` value. -/
theorem github_location_without_slash (r : GithubVersionResolver) (net : Net)
    (req : Request) (res : Response)
    (hreq : net.NewRequest "HEAD".toList r.url = .ok req)
    (hdo : net.Do (withUserAgent net req) = .ok res)
    (hs : res.StatusCode = 301 ∨ res.StatusCode = 302)
    (hloc : res.Header.Get "Location".toList ≠ [])
    (hno : '/' ∉ res.Header.Get "Location".toList) :
    r.Version net = some (res.Header.Get "Location".toList, none) := by
  obtain ⟨v, hv, _, hform⟩ := github_version_of_redirect r net req res hreq hdo hs hloc
  rcases hform with ⟨_, h⟩ | ⟨pre, h⟩
  · rw [hv, h]
  · exact absurd (by rw [h]; simp) hno

/-- C8 at the response `302 Found` with `Location: v9`. -/
theorem github_location_without_slash_witness :
    (flatRedirect.StatusCode = 301 ∨ flatRedirect.StatusCode = 302) ∧
    flatRedirect.Header.Get "Location".toList = "v9".toList ∧
    '/' ∉ flatRedirect.Header.Get "Location".toList ∧
    ownerRepo.Version (serving flatRedirect)
      = some (flatRedirect.Header.Get "Location".toList, none) :=
  ⟨by decide, by decide, by decide,
    github_location_without_slash ownerRepo (serving flatRedirect) ownerRepoRequest flatRedirect
      rfl rfl (by decide) (by decide) (by decide)⟩

/-- C10. For every response, `Version` does not panic: the index
`LastIndex(loc, "/")+1` of the slice is between 0 and `len(loc)`. When it
succeeds, the version holds no `/` and is a suffix of the `Location` value, the
part of `Location` before it is empty or ends with `/`, and the version is empty
when `Location` ends with `/`. -/
theorem github_version_is_last_segment (r : GithubVersionResolver) (net : Net)
    (req : Request) (res : Response)
    (hreq : net.NewRequest "HEAD".toList r.url = .ok req)
    (hdo : net.Do (withUserAgent net req) = .ok res) :
    r.Version net ≠ none ∧
    (0 ≤ LastIndex (res.Header.Get "Location".toList) "/".toList + 1 ∧
      LastIndex (res.Header.Get "Location".toList) "/".toList + 1
        ≤ (res.Header.Get "Location".toList).length) ∧
    ∀ v, r.Version net = some (v, none) →
      '/' ∉ v ∧ v <:+ res.Header.Get "Location".toList ∧
      (∃ pre, res.Header.Get "Location".toList = pre ++ v ∧
        (pre = [] ∨ pre.getLast? = some '/')) ∧
      ((res.Header.Get "Location".toList).getLast? = some '/' → v = []) := by
  obtain ⟨w, hw, -, -⟩ := slice_after_last_slash (res.Header.Get "Location".toList)
  refine ⟨?_, ?_, fun v hv => ?_⟩
  · rw [github_version_of_response r net req res hreq hdo, hw]
    split_ifs <;> simp
  · unfold sliceFrom at hw
    by_contra hc
    rw [if_neg hc] at hw
    exact Option.noConfusion hw
  · obtain ⟨-, -, hn, hform⟩ := github_version_success r net req res hreq hdo v hv
    have hpre : ∃ pre, res.Header.Get "Location".toList = pre ++ v ∧
        (pre = [] ∨ pre.getLast? = some '/') := by
      rcases hform with h | ⟨pre, h⟩
      · exact ⟨[], by rw [h]; rfl, Or.inl rfl⟩
      · exact ⟨pre ++ ['/'], by rw [h]; simp, Or.inr (by simp)⟩
    refine ⟨hn, ?_, hpre, fun hlast => ?_⟩
    · obtain ⟨pre, h, _⟩ := hpre
      exact ⟨pre, h.symm⟩
    · by_contra hv0
      obtain ⟨pre, h, _⟩ := hpre
      rw [h, List.getLast?_append_of_ne_nil _ hv0] at hlast
      exact hn (List.mem_of_getLast?_eq_some hlast)

/-- C10 at the response `302 Found` with `Location: tag/`, which ends with `/`:
the version is the empty string. -/
theorem github_version_is_last_segment_witness :
    (serving slashRedirect).NewRequest "HEAD".toList ownerRepo.url = .ok ownerRepoRequest ∧
    (serving slashRedirect).Do (withUserAgent (serving slashRedirect) ownerRepoRequest)
      = .ok slashRedirect ∧
    slashRedirect.Header.Get "Location".toList = "tag/".toList ∧
    ownerRepo.Version (serving slashRedirect) = some ([], none) ∧
    (ownerRepo.Version (serving slashRedirect) ≠ none ∧
    (0 ≤ LastIndex (slashRedirect.Header.Get "Location".toList) "/".toList + 1 ∧
      LastIndex (slashRedirect.Header.Get "Location".toList) "/".toList + 1
        ≤ (slashRedirect.Header.Get "Location".toList).length) ∧
    ∀ v, ownerRepo.Version (serving slashRedirect) = some (v, none) →
      '/' ∉ v ∧ v <:+ slashRedirect.Header.Get "Location".toList ∧
      (∃ pre, slashRedirect.Header.Get "Location".toList = pre ++ v ∧
        (pre = [] ∨ pre.getLast? = some '/')) ∧
      ((slashRedirect.Header.Get "Location".toList).getLast? = some '/' → v = [])) :=
  ⟨rfl, rfl, by decide, by decide,
    github_version_is_last_segment ownerRepo (serving slashRedirect) ownerRepoRequest
      slashRedirect rfl rfl⟩

/-! ## The stable-channel resolver -/

/-- What `Version` does once `NewRequest` and `Do` have returned a response. -/
theorem k8_version_of_response (net : Net) (req : Request) (res : Response)
    (hreq : net.NewRequest "GET".toList k8sURL = .ok req)
    (hdo : net.Do (withUserAgent net req) = .ok res) :
    K8VersionResolver.Version net =
      match res.Body with
      | none => some ([], some ⟨"unable to determine release of tool".toList⟩)
      | some body =>
        match ReadAll body with
        | (_, some err) => some ([], some err)
        | (bodyBytes, none) => some (bodyBytes, none) := by
  simp only [K8VersionResolver.Version, hreq, hdo]

/-- A read error of the body is what `K8VersionResolver.Version` returns, with the
empty version. -/
theorem k8_read_error_returned (net : Net) (req : Request) (res : Response)
    (hreq : net.NewRequest "GET".toList k8sURL = .ok req)
    (hdo : net.Do (withUserAgent net req) = .ok res)
    (data : GoString) (err : GoError) (hb : res.Body = some ⟨data, some err⟩) :
    K8VersionResolver.Version net = some ([], some err) := by
  rw [k8_version_of_response net req res hreq hdo, hb]
  rfl

/-- C3. For every response obtained without a transport error, whatever its status
code, `Version` succeeds exactly when the body is non-nil and is read without
error; it then returns the body content as it is; a nil body fails with
`unable to determine release of tool`. -/
theorem k8_version_contract (net : Net) (req : Request) (res : Response)
    (hreq : net.NewRequest "GET".toList k8sURL = .ok req)
    (hdo : net.Do (withUserAgent net req) = .ok res) :
    ((∃ v, K8VersionResolver.Version net = some (v, none)) ↔
      ∃ data, res.Body = some ⟨data, none⟩) ∧
    (∀ data, res.Body = some ⟨data, none⟩ →
      K8VersionResolver.Version net = some (data, none)) ∧
    (res.Body = none → K8VersionResolver.Version net
      = some ([], some ⟨"unable to determine release of tool".toList⟩)) := by
  have hok : ∀ data, res.Body = some ⟨data, none⟩ →
      K8VersionResolver.Version net = some (data, none) := by
    intro data hb
    rw [k8_version_of_response net req res hreq hdo, hb]
    rfl
  refine ⟨⟨fun ⟨v, hv⟩ => ?_, fun ⟨data, hb⟩ => ⟨data, hok data hb⟩⟩, hok, fun hb => ?_⟩
  · rw [k8_version_of_response net req res hreq hdo] at hv
    rcases hb : res.Body with _ | ⟨data, _ | err⟩
    · rw [hb] at hv; simp at hv
    · exact ⟨data, rfl⟩
    · rw [hb] at hv; simp [ReadAll] at hv
  · rw [k8_version_of_response net req res hreq hdo, hb]

/-- C3 at the body `v1.29.0` with its newline, which is returned untrimmed, and at
a response with status 404, whose body is returned all the same. -/
theorem k8_version_contract_witness :
    (serving stableResponse).NewRequest "GET".toList k8sURL = .ok k8sRequest ∧
    (serving stableResponse).Do (withUserAgent (serving stableResponse) k8sRequest)
      = .ok stableResponse ∧
    K8VersionResolver.Version (serving stableResponse) = some ("v1.29.0\n".toList, none) ∧
    K8VersionResolver.Version (serving goneResponse) = some ("gone".toList, none) ∧
    (((∃ v, K8VersionResolver.Version (serving stableResponse) = some (v, none)) ↔
      ∃ data, stableResponse.Body = some ⟨data, none⟩) ∧
    (∀ data, stableResponse.Body = some ⟨data, none⟩ →
      K8VersionResolver.Version (serving stableResponse) = some (data, none)) ∧
    (stableResponse.Body = none → K8VersionResolver.Version (serving stableResponse)
      = some ([], some ⟨"unable to determine release of tool".toList⟩))) :=
  ⟨rfl, rfl, by decide, by decide,
    k8_version_contract (serving stableResponse) k8sRequest stableResponse rfl rfl⟩

/-! ## The toolchain resolver -/

/-- A repetition stops where the next character is not in the class. -/
theorem plusLoop_stop (c : Cls) (k : GoString → Nat → List (Nat × Nat) → Option Match)
    (t : GoString) (pos : Nat) (caps : List (Nat × Nat))
    (ht : ∀ x, t.head? = some x → c.test x = false) :
    plusLoop c k t pos caps = none := by
  cases t with
  | nil => rfl
  | cons x xs => simp [plusLoop, ht x rfl]

/-- A greedy repetition takes a whole run `ds` of characters of its class when the
rest of the pattern matches after the run and the run cannot be made longer. -/
theorem plusLoop_greedy (c : Cls) (k : GoString → Nat → List (Nat × Nat) → Option Match)
    (ds t : GoString) (caps : List (Nat × Nat)) (r : Match)
    (hne : ds ≠ []) (hall : ∀ x ∈ ds, c.test x = true)
    (ht : ∀ x, t.head? = some x → c.test x = false) :
    ∀ pos, k t (pos + ds.length) caps = some r → plusLoop c k (ds ++ t) pos caps = some r := by
  induction ds with
  | nil => exact absurd rfl hne
  | cons d ds ih =>
    intro pos hk
    have hd : c.test d = true := hall d (List.mem_cons_self _ _)
    by_cases hds : ds = []
    · subst hds
      have hstop := plusLoop_stop c k t (pos + 1) caps ht
      simpa [plusLoop, hd, hstop] using hk
    · have hrec := ih hds (fun x hx => hall x (List.mem_cons_of_mem _ hx)) (pos + 1)
        (by rw [← hk]; congr 1; simp; omega)
      simp [plusLoop, hd, hrec]

/-- The item `\d+` takes a whole run of digits that no digit follows. -/
theorem run_plus_digit (is : Regexp) (ds t : GoString) (pos : Nat) (caps : List (Nat × Nat))
    (r : Match) (hne : ds ≠ []) (hall : ∀ x ∈ ds, x.isDigit = true)
    (ht : ∀ x, t.head? = some x → x.isDigit = false)
    (hk : run is t (pos + ds.length) caps = some r) :
    run (.plus .digit :: is) (ds ++ t) pos caps = some r := by
  rw [run]
  exact plusLoop_greedy .digit (run is) ds t caps r hne hall ht pos hk

/-- The item `.` takes a dot. -/
theorem run_any_dot (is : Regexp) (t : GoString) (pos : Nat) (caps : List (Nat × Nat)) :
    run (.one .anyNotNL :: is) ('.' :: t) pos caps = run is t (pos + 1) caps := by
  simp [run, Cls.test]

/-- The match of `^go(\d+.\d+.\d+)` on `go<major>.<minor>.<patch>` followed by text
that does not start with a digit. -/
theorem run_goVersionExp (major minor patch rest : GoString)
    (hM : major ≠ [] ∧ ∀ x ∈ major, x.isDigit = true)
    (hm : minor ≠ [] ∧ ∀ x ∈ minor, x.isDigit = true)
    (hp : patch ≠ [] ∧ ∀ x ∈ patch, x.isDigit = true)
    (hrest : ∀ x, rest.head? = some x → x.isDigit = false) :
    run goVersionExp ('g' :: 'o' :: (major ++ '.' :: (minor ++ '.' :: (patch ++ rest)))) 0 []
      = some (2 + major.length + 1 + minor.length + 1 + patch.length,
          [(3, 2 + major.length + 1 + minor.length + 1 + patch.length), (2, 2)]) := by
  have hdot : ∀ (u : GoString) (x : Char), ('.' :: u).head? = some x → x.isDigit = false := by
    intro u x hx
    simp at hx
    subst hx
    decide
  have h3 : run [.plus .digit, .save 3] (patch ++ rest)
      (2 + major.length + 1 + minor.length + 1) [(2, 2)]
      = some (2 + major.length + 1 + minor.length + 1 + patch.length,
          [(3, 2 + major.length + 1 + minor.length + 1 + patch.length), (2, 2)]) :=
    run_plus_digit [.save 3] patch rest _ _ _ hp.1 hp.2 hrest (by simp only [run])
  have h2 := run_plus_digit [.one .anyNotNL, .plus .digit, .save 3] minor
    ('.' :: (patch ++ rest)) (2 + major.length + 1) [(2, 2)] _ hm.1 hm.2 (hdot _)
    (by rw [run_any_dot]; exact h3)
  have h1 := run_plus_digit
    [.one .anyNotNL, .plus .digit, .one .anyNotNL, .plus .digit, .save 3] major
    ('.' :: (minor ++ '.' :: (patch ++ rest))) 2 [(2, 2)] _ hM.1 hM.2 (hdot _)
    (by rw [run_any_dot]; exact h2)
  simpa [goVersionExp, run, Cls.test] using h1

/-- The submatches of `^go(\d+.\d+.\d+)` on such a text: the whole match and the
version. -/
theorem FindStringSubmatch_goVersionExp (major minor patch rest : GoString)
    (hM : major ≠ [] ∧ ∀ x ∈ major, x.isDigit = true)
    (hm : minor ≠ [] ∧ ∀ x ∈ minor, x.isDigit = true)
    (hp : patch ≠ [] ∧ ∀ x ∈ patch, x.isDigit = true)
    (hrest : ∀ x, rest.head? = some x → x.isDigit = false) :
    FindStringSubmatch goVersionExp
        ('g' :: 'o' :: (major ++ '.' :: (minor ++ '.' :: (patch ++ rest))))
      = ['g' :: 'o' :: (major ++ '.' :: (minor ++ '.' :: patch)),
         major ++ '.' :: (minor ++ '.' :: patch)] := by
  have hrun := run_goVersionExp major minor patch rest hM hm hp hrest
  have htake : ∀ (a b : GoString) (n : Nat), n = a.length → (a ++ b).take n = a := by
    intro a b n hn
    subst hn
    simp
  have hlen : (major ++ '.' :: (minor ++ '.' :: patch)).length
      = major.length + 1 + minor.length + 1 + patch.length := by
    simp; omega
  have hsplit : major ++ '.' :: (minor ++ '.' :: (patch ++ rest))
      = (major ++ '.' :: (minor ++ '.' :: patch)) ++ rest := by simp
  simp only [FindStringSubmatch, search, hrun, Option.orElse, List.lookup, between]
  congr 1
  · have h : 2 + major.length + 1 + minor.length + 1 + patch.length
        = (major.length + 1 + minor.length + 1 + patch.length) + 2 := by omega
    rw [h, List.take_succ_cons, List.take_succ_cons, hsplit]
    rw [htake _ _ _ hlen.symm]
  · congr 1
    have h : 2 + major.length + 1 + minor.length + 1 + patch.length - 2
        = major.length + 1 + minor.length + 1 + patch.length := by omega
    show List.take (2 + major.length + 1 + minor.length + 1 + patch.length - 2)
        (List.drop 2 ('g' :: 'o' :: (major ++ '.' :: (minor ++ '.' :: (patch ++ rest)))))
      = major ++ '.' :: (minor ++ '.' :: patch)
    simp only [List.drop_succ_cons, List.drop_zero, h]
    rw [hsplit, htake _ _ _ hlen.symm]

/-- What `Version` does once `NewRequest` and `Do` have returned a response with a
body. -/
theorem go_version_of_body (net : Net) (req : Request) (res : Response)
    (b : Body)
    (hreq : net.NewRequest "GET".toList goURL = .ok req)
    (hdo : net.Do (withUserAgent net req) = .ok res)
    (hb : res.Body = some b) :
    GoVersionResolver.Version net =
      if res.StatusCode ≠ 200 then
        some ([], some (Errorf "unexpected status code: ".toList res.StatusCode))
      else if (FindStringSubmatch goVersionExp (TrimSpace b.data)).length < 2 then
        some ([], some ⟨"failed to fetch go latest version number".toList⟩)
      else
        match (FindStringSubmatch goVersionExp (TrimSpace b.data)).get? 1 with
        | none => none
        | some v => some (v, none) := by
  simp only [GoVersionResolver.Version, hreq, hdo, hb, Compile_goVersionExp, ReadAll]

/-- C2. For every response with status 200 and a body read without error whose
trimmed content is `go`, then three non-empty runs of decimal digits separated by
dots, then possibly text that does not start with a digit, `Version` succeeds and
returns `<major>.<minor>.<patch>`, without the `go`. -/
theorem go_version_contract (net : Net) (req : Request) (res : Response)
    (data major minor patch rest : GoString)
    (hreq : net.NewRequest "GET".toList goURL = .ok req)
    (hdo : net.Do (withUserAgent net req) = .ok res)
    (hs : res.StatusCode = 200)
    (hb : res.Body = some ⟨data, none⟩)
    (hM : major ≠ [] ∧ ∀ x ∈ major, x.isDigit = true)
    (hm : minor ≠ [] ∧ ∀ x ∈ minor, x.isDigit = true)
    (hp : patch ≠ [] ∧ ∀ x ∈ patch, x.isDigit = true)
    (hrest : ∀ x, rest.head? = some x → x.isDigit = false)
    (hc : TrimSpace data = "go".toList ++ (major ++ '.' :: (minor ++ '.' :: (patch ++ rest)))) :
    GoVersionResolver.Version net = some (major ++ '.' :: (minor ++ '.' :: patch), none) := by
  have hc2 : TrimSpace data
      = 'g' :: 'o' :: (major ++ '.' :: (minor ++ '.' :: (patch ++ rest))) := hc
  have hfind := FindStringSubmatch_goVersionExp major minor patch rest hM hm hp hrest
  rw [go_version_of_body net req res _ hreq hdo hb, if_neg (by simp [hs])]
  simp only [hc2, hfind]
  rfl

/-- C2 at the body `go1.22.1` with a newline: the version is `1.22.1`. -/
theorem go_version_contract_witness :
    goResponse.StatusCode = 200 ∧
    goResponse.Body = some ⟨"go1.22.1\n".toList, none⟩ ∧
    TrimSpace "go1.22.1\n".toList
      = "go".toList ++ ("1".toList ++ '.' :: ("22".toList ++ '.' :: ("1".toList ++ []))) ∧
    GoVersionResolver.Version (serving goResponse) = some ("1.22.1".toList, none) :=
  ⟨rfl, rfl, by decide,
    go_version_contract (serving goResponse) goRequest goResponse "go1.22.1\n".toList
      "1".toList "22".toList "1".toList [] rfl rfl rfl rfl
      (by decide) (by decide) (by decide) (by simp) (by decide)⟩

/-- C6. For every response with a non-nil body and a status code other than 200,
whatever the body holds, `Version` fails with the error
`unexpected status code: <code>`, whose message contains the status code in
decimal. -/
theorem go_other_status_fails (net : Net) (req : Request) (res : Response) (b : Body)
    (hreq : net.NewRequest "GET".toList goURL = .ok req)
    (hdo : net.Do (withUserAgent net req) = .ok res)
    (hb : res.Body = some b)
    (hs : res.StatusCode ≠ 200) :
    GoVersionResolver.Version net
      = some ([], some (Errorf "unexpected status code: ".toList res.StatusCode)) ∧
    fmtInt res.StatusCode
      <:+: (Errorf "unexpected status code: ".toList res.StatusCode).msg := by
  refine ⟨?_, (List.suffix_append _ _).isInfix⟩
  rw [go_version_of_body net req res b hreq hdo hb, if_pos hs]

/-- C6 at the response `500` whose body `go1.22.1` matches the version pattern:
the error message is `unexpected status code: 500`. -/
theorem go_other_status_fails_witness :
    goFailure.Body = some ⟨"go1.22.1\n".toList, none⟩ ∧
    goFailure.StatusCode ≠ 200 ∧
    (Errorf "unexpected status code: ".toList goFailure.StatusCode).msg
      = "unexpected status code: 500".toList ∧
    (GoVersionResolver.Version (serving goFailure)
      = some ([], some (Errorf "unexpected status code: ".toList goFailure.StatusCode)) ∧
    fmtInt goFailure.StatusCode
      <:+: (Errorf "unexpected status code: ".toList goFailure.StatusCode).msg) :=
  ⟨rfl, by decide, by decide,
    go_other_status_fails (serving goFailure) goRequest goFailure _ rfl rfl rfl (by decide)⟩

/-- C7, at the failing input. The body of a `200 OK` response breaks off with the
error `unexpected EOF` after `go1.22.1`: `io.ReadAll` returns that error,
`K8VersionResolver.Version` returns it to the caller, and
`GoVersionResolver.Version` drops it and returns the version `1.22.1`, made from
the partially read content, with a nil error. -/
theorem go_version_drops_read_error :
    (∃ b, goBroken.Body = some b ∧
      ReadAll b = ("go1.22.1".toList, some ⟨"unexpected EOF".toList⟩)) ∧
    K8VersionResolver.Version (serving goBroken)
      = some ([], some ⟨"unexpected EOF".toList⟩) ∧
    GoVersionResolver.Version (serving goBroken) = some ("1.22.1".toList, none) :=
  ⟨⟨_, rfl, rfl⟩, by decide, by decide⟩

/-- C9, at the failing inputs. The dots of the pattern `^go(\d+.\d+.\d+)` are not
escaped and match any character: with status 200, the body `go1x22y1` yields the
version `1x22y1` and the body `go12345` the version `12345`, neither of them a
dotted number, where the body `not-a-version` fails with
`failed to fetch go latest version number`. -/
theorem go_version_accepts_any_separator :
    GoVersionResolver.Version (serving (textResponse 200 "go1x22y1".toList))
      = some ("1x22y1".toList, none) ∧
    GoVersionResolver.Version (serving (textResponse 200 "go12345".toList))
      = some ("12345".toList, none) ∧
    GoVersionResolver.Version (serving (textResponse 200 "not-a-version".toList))
      = some ([], some ⟨"failed to fetch go latest version number".toList⟩) :=
  ⟨by decide, by decide, by decide⟩

end Get
